import Mathlib

/-!
Verification of the Hindi alphabet trainer (`src/main.py`).

The development shallowly embeds the algorithmic core of the program:

* the filtered navigation over the ordered letter list
  (`MainWindow._is_index_visible`, `_next_visible_index`, `_prev_visible_index`,
  `on_filter_changed`, the index clamp inside `_refresh`);
* the playback scheduling state machine
  (`_play_repeated`, `_wait_until_silent`, the `_after_done` closure,
  `_continuous_advance_and_play`, `_stop_continuous`, `on_play`), modelled as
  an explicit continuation/step semantics over an application state record,
  with the speech engine's busy signal as a boolean oracle;
* the TTS wrapper `HindiTTSPlayer.play_for` / `_reinit_engine`, with the
  outcomes of the engine's `say`/`runAndWait` calls as oracles;
* the grapheme-cluster segmentation and highlighting
  (`ExampleMatraPointer._cluster_positions`, `MainWindow._highlight_matra_cluster`),
  parameterised over the grapheme rule implemented by the third-party `regex`
  module's `\X` pattern, over whose behaviour we only use that each match
  consumes at least one and at most all remaining characters.

Strings are lists of `Char`; machine integers of the source are `Nat`/`Int`.
-/

namespace HindiApp

/-- The three filter modes of the radio buttons (`"vowels" | "consonants" | "both"`). -/
inductive FilterMode where
  | vowels
  | consonants
  | both
deriving DecidableEq, Repr

/-- `MainWindow._is_index_visible`: vowels are the indices below 13, consonants
the indices from 13 on, and in mode `both` everything is visible. -/
def isIndexVisible (mode : FilterMode) (i : Nat) : Bool :=
  match mode with
  | .vowels => decide (i < 13)
  | .consonants => decide (13 ≤ i)
  | .both => true

/-- The scan loop of `MainWindow._next_visible_index`: starting at index `i`
with `rem` indices left before the end of the list (`rem = n - i`), return the
first visible index, else `none`.  Structural recursion on the remaining count
replaces the Python `while i < n` loop. -/
def nextFrom (mode : FilterMode) : Nat → Nat → Option Nat
  | _, 0 => none
  | i, rem + 1 => if isIndexVisible mode i then some i else nextFrom mode (i + 1) rem

/-- `MainWindow._next_visible_index(start)` over a list of length `n`. -/
def nextVisibleIndex (mode : FilterMode) (n start : Nat) : Option Nat :=
  nextFrom mode (start + 1) (n - (start + 1))

/-- The scan loop of `MainWindow._prev_visible_index`: `prevFrom mode s` checks
indices `s-1, s-2, ..., 0` and returns the first visible one, else `none`
(the Python `while i >= 0` loop, which never consults the list length). -/
def prevFrom (mode : FilterMode) : Nat → Option Nat
  | 0 => none
  | i + 1 => if isIndexVisible mode i then some i else prevFrom mode i

/-- `MainWindow._prev_visible_index(start)`. -/
def prevVisibleIndex (mode : FilterMode) (start : Nat) : Option Nat :=
  prevFrom mode start

theorem nextFrom_some (mode : FilterMode) :
    ∀ rem i j, nextFrom mode i rem = some j →
      i ≤ j ∧ j < i + rem ∧ isIndexVisible mode j = true ∧
        ∀ k, i ≤ k → k < j → isIndexVisible mode k = false := by
  intro rem
  induction rem with
  | zero => intro i j h; simp [nextFrom] at h
  | succ rem ih =>
    intro i j h
    rw [nextFrom] at h
    by_cases hv : isIndexVisible mode i = true
    · simp [hv] at h
      subst h
      refine ⟨Nat.le_refl i, by omega, hv, ?_⟩
      intro k hk hk2; omega
    · simp [hv] at h
      obtain ⟨h1, h2, h3, h4⟩ := ih (i + 1) j h
      refine ⟨by omega, by omega, h3, ?_⟩
      intro k hk hk2
      rcases Nat.eq_or_lt_of_le hk with rfl | hlt
      · simpa using hv
      · exact h4 k hlt hk2

theorem nextFrom_none (mode : FilterMode) :
    ∀ rem i, nextFrom mode i rem = none →
      ∀ k, i ≤ k → k < i + rem → isIndexVisible mode k = false := by
  intro rem
  induction rem with
  | zero => intro i _ k hk hk2; omega
  | succ rem ih =>
    intro i h k hk hk2
    rw [nextFrom] at h
    by_cases hv : isIndexVisible mode i = true
    · simp [hv] at h
    · simp [hv] at h
      rcases Nat.eq_or_lt_of_le hk with rfl | hlt
      · simpa using hv
      · exact ih (i + 1) h k hlt (by omega)

theorem prevFrom_some (mode : FilterMode) :
    ∀ s p, prevFrom mode s = some p →
      p < s ∧ isIndexVisible mode p = true ∧
        ∀ k, p < k → k < s → isIndexVisible mode k = false := by
  intro s
  induction s with
  | zero => intro p h; simp [prevFrom] at h
  | succ s ih =>
    intro p h
    rw [prevFrom] at h
    by_cases hv : isIndexVisible mode s = true
    · simp [hv] at h
      subst h
      exact ⟨Nat.lt_succ_self s, hv, fun k hk hk2 => by omega⟩
    · simp [hv] at h
      obtain ⟨h1, h2, h3⟩ := ih p h
      refine ⟨by omega, h2, ?_⟩
      intro k hk hk2
      rcases Nat.lt_succ_iff_lt_or_eq.mp hk2 with hlt | rfl
      · exact h3 k hk hlt
      · simpa using hv

theorem prevFrom_none (mode : FilterMode) :
    ∀ s, prevFrom mode s = none →
      ∀ k, k < s → isIndexVisible mode k = false := by
  intro s
  induction s with
  | zero => intro _ k hk; omega
  | succ s ih =>
    intro h k hk
    rw [prevFrom] at h
    by_cases hv : isIndexVisible mode s = true
    · simp [hv] at h
    · simp [hv] at h
      rcases Nat.lt_succ_iff_lt_or_eq.mp hk with hlt | rfl
      · exact ih h k hlt
      · simpa using hv

/-- Claim C4: over any letter list (of length `n`), any filter mode and any
start position `p`, `_next_visible_index p` returns the smallest position
strictly greater than `p` that lies in the list and is visible — and `none`
exactly when every later position of the list is invisible; `_prev_visible_index p`
returns the largest position strictly smaller than `p` that is visible, and
`none` when no smaller position is visible. -/
theorem claim_C4 (mode : FilterMode) (n p : Nat) :
    (∀ j, nextVisibleIndex mode n p = some j →
      p < j ∧ j < n ∧ isIndexVisible mode j = true ∧
        ∀ k, p < k → k < j → isIndexVisible mode k = false) ∧
    (nextVisibleIndex mode n p = none →
      ∀ k, p < k → k < n → isIndexVisible mode k = false) ∧
    (∀ j, prevVisibleIndex mode p = some j →
      j < p ∧ isIndexVisible mode j = true ∧
        ∀ k, j < k → k < p → isIndexVisible mode k = false) ∧
    (prevVisibleIndex mode p = none →
      ∀ k, k < p → isIndexVisible mode k = false) := by
  refine ⟨?_, ?_, ?_, ?_⟩
  · intro j h
    obtain ⟨h1, h2, h3, h4⟩ := nextFrom_some mode (n - (p + 1)) (p + 1) j h
    refine ⟨by omega, by omega, h3, ?_⟩
    intro k hk hk2
    exact h4 k (by omega) hk2
  · intro h k hk hk2
    exact nextFrom_none mode (n - (p + 1)) (p + 1) h k (by omega) (by omega)
  · intro j h
    obtain ⟨h1, h2, h3⟩ := prevFrom_some mode p j h
    exact ⟨h1, h2, h3⟩
  · intro h k hk
    exact prevFrom_none mode p h k hk

/-- Claim C5: for a visible position `x`, whenever `prev x` is defined and
`next (prev x)` is defined, the round trip comes back to `x`. -/
theorem claim_C5 (mode : FilterMode) (n x p j : Nat)
    (hx : isIndexVisible mode x = true)
    (hp : prevVisibleIndex mode x = some p)
    (hj : nextVisibleIndex mode n p = some j) : j = x := by
  obtain ⟨hpx, _, hgap⟩ := prevFrom_some mode x p hp
  obtain ⟨hpj, _, hvj, hmin⟩ := nextFrom_some mode (n - (p + 1)) (p + 1) j hj
  rcases Nat.lt_trichotomy j x with hlt | heq | hgt
  · have := hgap j (by omega) hlt
    rw [hvj] at this
    exact absurd this (by simp)
  · exact heq
  · have := hmin x (by omega) hgt
    rw [hx] at this
    exact absurd this (by simp)

/-- Witness for C5: mode `both`, list length 5, `x = 3`:
`prev 3 = some 2`, `next 2 = some 3`, and the round trip returns `3`. -/
theorem claim_C5_witness :
    prevVisibleIndex FilterMode.both 3 = some 2 ∧
    nextVisibleIndex FilterMode.both 5 2 = some 3 ∧ (3 : Nat) = 3 :=
  ⟨by decide, by decide,
    claim_C5 FilterMode.both 5 3 2 3 (by decide) (by decide) (by decide)⟩

/-- The index clamp at the top of `MainWindow._refresh`: with a non-empty
letter list an out-of-range index is reset to 0; with an empty list `_refresh`
returns before touching the index.  (The `self.index < 0` branch of the source
cannot fire: every assignment to the index is non-negative.) -/
def refreshIndex (lettersLen i : Nat) : Nat :=
  if lettersLen = 0 then i
  else if i < lettersLen then i else 0

/-- The anchor position of a mode, as the source hard-codes it
(`self.index = 13  # first consonant` for consonants, 0 otherwise). -/
def firstVisible (mode : FilterMode) : Nat :=
  if mode = FilterMode.consonants then 13 else 0

/-- `repeats = int(TTS_REPEATS) if TTS_REPEATS and int(TTS_REPEATS) > 0 else 1`:
the effective repeat count derived from the `TTS_REPEATS` setting. -/
def effRepeats (r : Int) : Nat :=
  if 0 < r then r.toNat else 1

/-- The scheduler-relevant state of `MainWindow`.  `speakCount` counts the
`audio_player.play_for` (Speaker.speak) invocations — the observable playback
trace; `errored` records an uncaught `IndexError` from `letters[self.index]`
in `_play_repeated`. -/
structure AppState where
  lettersLen : Nat
  index : Nat
  filterMode : FilterMode
  playToken : Nat
  continuousActive : Bool
  busy : Bool
  speakCount : Nat
  errored : Bool
deriving DecidableEq, Repr

/-- The continuations the scheduler parks on `QTimer.singleShot`:

* `playRep tl tok` — the inter-repeat delay (and navigation/rate-change
  delays) firing `_play_repeated(tl, tok)`;
* `pollSilent tok tl` — the 100 ms poll tick of `_wait_until_silent`, whose
  `cont` is the `_after_done` closure of `_play_repeated(tl, tok)`;
* `trailingIdle` — the trailing delay `singleShot(TTS_DELAY, lambda: self._set_busy(False))`
  (the lambda captures no token);
* `contAdvance tok` — the inter-letter delay firing
  `_continuous_advance_and_play(tok)`. -/
inductive Cont where
  | playRep (timesLeft : Nat) (token : Nat)
  | pollSilent (token : Nat) (timesLeft : Nat)
  | trailingIdle
  | contAdvance (token : Nat)
deriving DecidableEq, Repr

/-- The `_after_done` closure inside `_play_repeated`: re-checks the token,
then either schedules the next repeat after `TTS_DELAY`, or schedules the
trailing busy-reset and, when continuous mode is still on and the token still
current, the continuous advance after the inter-letter gap. -/
def afterDone (tl tok : Nat) (s : AppState) : AppState × List Cont :=
  if tok ≠ s.playToken then (s, [])
  else if 1 < tl then (s, [Cont.playRep (tl - 1) tok])
  else
    (s, Cont.trailingIdle ::
      (if s.continuousActive && tok == s.playToken then [Cont.contAdvance tok] else []))

/-- `MainWindow._wait_until_silent(token, cont)` with `cont = _after_done tl tok`:
abandon on a stale token; while the engine reports speaking, re-arm the 100 ms
poll; once silent (or if polling raises) run the continuation.  `speaking` is
the value read from `audio_player.is_speaking()`. -/
def waitUntilSilent (speaking : Bool) (tok tl : Nat) (s : AppState) : AppState × List Cont :=
  if tok ≠ s.playToken then (s, [])
  else if speaking then (s, [Cont.pollSilent tok tl])
  else afterDone tl tok s

/-- `MainWindow._play_repeated(times_left, token)`: abandon on a stale token;
otherwise mark busy, speak the current letter (`letters[self.index]` raises
`IndexError` when the index is out of range — recorded in `errored`), then
synchronously enter `_wait_until_silent`. -/
def playRepeated (speaking : Bool) (tl tok : Nat) (s : AppState) : AppState × List Cont :=
  if tok ≠ s.playToken then (s, [])
  else
    if s.index < s.lettersLen then
      waitUntilSilent speaking tok tl
        { s with busy := true, speakCount := s.speakCount + 1 }
    else ({ s with busy := true, errored := true }, [])

/-- `MainWindow._continuous_advance_and_play(token)`: bail out when continuous
mode was stopped or the token is stale; otherwise step to the next visible
index, wrapping to the hard-coded anchor (13 for consonants, else 0) at the
end; `_refresh` clamps the index; then play the current letter again. -/
def continuousAdvanceAndPlay (ttsRepeats : Int) (speaking : Bool) (tok : Nat)
    (s : AppState) : AppState × List Cont :=
  if !s.continuousActive then (s, [])
  else if tok ≠ s.playToken then (s, [])
  else
    let nxt := (nextVisibleIndex s.filterMode s.lettersLen s.index).getD
      (if s.filterMode = FilterMode.consonants then 13 else 0)
    playRepeated speaking (effRepeats ttsRepeats) tok
      { s with index := refreshIndex s.lettersLen nxt }

/-- Firing one parked continuation: dispatch to the handler it wraps.
`trailingIdle` runs `self._set_busy(False)` unconditionally — it holds no
token to compare. -/
def fire (ttsRepeats : Int) (speaking : Bool) : Cont → AppState → AppState × List Cont
  | .playRep tl tok, s => playRepeated speaking tl tok s
  | .pollSilent tok tl, s => waitUntilSilent speaking tok tl s
  | .trailingIdle, s => ({ s with busy := false }, [])
  | .contAdvance tok, s => continuousAdvanceAndPlay ttsRepeats speaking tok s

/-- Run the event loop on the queue of parked continuations, in FIFO order,
with the engine always reporting not-busy (the "reports not-busy promptly"
assumption); `fuel` bounds the number of dispatches. -/
def runConts (ttsRepeats : Int) : Nat → AppState → List Cont → AppState × List Cont
  | 0, s, q => (s, q)
  | _ + 1, s, [] => (s, [])
  | fuel + 1, s, c :: rest =>
    let p := fire ttsRepeats false c s
    runConts ttsRepeats fuel p.1 (rest ++ p.2)

/-- `MainWindow._stop_continuous`: clear the continuous flag, bump the token
(cancelling in-flight continuations), restore the UI via
`_apply_autoplay_ui(False)` — which calls `_refresh` and hence the index
clamp. -/
def stopContinuous (s : AppState) : AppState :=
  { s with continuousActive := false,
           playToken := s.playToken + 1,
           index := refreshIndex s.lettersLen s.index }

/-- `MainWindow.on_play`: while continuous mode is active the Play button acts
as Stop; otherwise bump the token, mark busy and start `_play_repeated`
immediately. -/
def onPlay (ttsRepeats : Int) (speaking : Bool) (s : AppState) : AppState × List Cont :=
  if s.continuousActive then (stopContinuous s, [])
  else
    playRepeated speaking (effRepeats ttsRepeats) (s.playToken + 1)
      { s with playToken := s.playToken + 1, busy := true }

/-- `MainWindow.on_filter_changed(mode)`: store the mode, jump to the
hard-coded first index of the selected set, `_refresh` (index clamp), and when
`CURRENT_AUTO_PLAY_SOUND` is set bump the token, mark busy and park a
`_play_repeated` behind the initial `TTS_DELAY`. -/
def onFilterChanged (autoPlaySound : Bool) (ttsRepeats : Int) (mode : FilterMode)
    (s : AppState) : AppState × List Cont :=
  let i0 := if mode = FilterMode.consonants then 13 else 0
  let s2 : AppState :=
    { s with filterMode := mode, index := refreshIndex s.lettersLen i0 }
  if autoPlaySound then
    ({ s2 with playToken := s2.playToken + 1, busy := true },
      [Cont.playRep (effRepeats ttsRepeats) (s2.playToken + 1)])
  else (s2, [])

theorem waitUntilSilent_fst (speaking : Bool) (tok tl : Nat) (s : AppState) :
    (waitUntilSilent speaking tok tl s).1 = s := by
  unfold waitUntilSilent afterDone
  split_ifs <;> rfl

/-- Claim C1 (amended): a poll tick, an inter-repeat delay, or a continuous
advance that captured a token `t1` different from the scheduler's current
token is an exact no-op — the state is untouched and nothing new is
scheduled.  The trailing delay of `_play_repeated`, however, carries no token:
whenever it fires it clears the busy flag (and schedules nothing and speaks
nothing), even under a newer token. -/
theorem claim_C1 (ttsRepeats : Int) (speaking : Bool) (s : AppState) (t1 tl : Nat) :
    (t1 ≠ s.playToken →
      fire ttsRepeats speaking (Cont.playRep tl t1) s = (s, []) ∧
      fire ttsRepeats speaking (Cont.pollSilent t1 tl) s = (s, []) ∧
      fire ttsRepeats speaking (Cont.contAdvance t1) s = (s, [])) ∧
    fire ttsRepeats speaking Cont.trailingIdle s = ({ s with busy := false }, []) := by
  constructor
  · intro h
    refine ⟨?_, ?_, ?_⟩
    · simp [fire, playRepeated, h]
    · simp [fire, waitUntilSilent, h]
    · cases hca : s.continuousActive <;>
        simp [fire, continuousAdvanceAndPlay, h, hca]
  · rfl

/-- A state in which a campaign with token 2 is current and busy, while the
trailing delay scheduled by the previous campaign (token 1) is still parked. -/
def stalePlaybackState : AppState :=
  { lettersLen := 48, index := 0, filterMode := FilterMode.both, playToken := 2,
    continuousActive := false, busy := true, speakCount := 0, errored := false }

/-- Counterexample to claim C1 as stated: the trailing delay of
`_play_repeated` (`singleShot(TTS_DELAY, lambda: self._set_busy(False))`)
captures no token and performs no token comparison; fired while a newer token
(2) is current, it is not a no-op — it flips the busy flag to `false`. -/
theorem claim_C1_cex :
    stalePlaybackState.busy = true ∧
    (fire 3 false Cont.trailingIdle stalePlaybackState).1.busy = false ∧
    fire 3 false Cont.trailingIdle stalePlaybackState ≠ (stalePlaybackState, []) := by
  refine ⟨rfl, rfl, ?_⟩
  decide

/-- Claim C3 (amended): after `on_filter_changed(mode)` the cursor sits at the
hard-coded first index of the selected set (13 for consonants, 0 otherwise)
and is visible under the new mode — provided that, when the mode is
consonants, the loaded list is empty or has more than 13 entries.  (With a
non-empty list of at most 13 entries the clamp in `_refresh` resets the
cursor from 13 to 0, which is not visible under consonants.) -/
theorem claim_C3 (autoPlaySound : Bool) (ttsRepeats : Int) (mode : FilterMode)
    (s : AppState)
    (h : mode = FilterMode.consonants → s.lettersLen = 0 ∨ 13 < s.lettersLen) :
    (onFilterChanged autoPlaySound ttsRepeats mode s).1.index = firstVisible mode ∧
    (onFilterChanged autoPlaySound ttsRepeats mode s).1.filterMode = mode ∧
    isIndexVisible mode (onFilterChanged autoPlaySound ttsRepeats mode s).1.index = true := by
  cases mode with
  | consonants =>
    rcases h rfl with h0 | h0
    · cases autoPlaySound <;>
        simp [onFilterChanged, refreshIndex, firstVisible, isIndexVisible, h0]
    · have hne : s.lettersLen ≠ 0 := by omega
      cases autoPlaySound <;>
        simp [onFilterChanged, refreshIndex, firstVisible, isIndexVisible, hne, h0]
  | vowels =>
    by_cases hl : s.lettersLen = 0 <;> cases autoPlaySound <;>
      simp [onFilterChanged, refreshIndex, firstVisible, isIndexVisible, hl, Nat.pos_of_ne_zero]
  | both =>
    by_cases hl : s.lettersLen = 0 <;> cases autoPlaySound <;>
      simp [onFilterChanged, refreshIndex, firstVisible, isIndexVisible, hl, Nat.pos_of_ne_zero]

/-- A state whose loaded letter list has only 5 entries. -/
def shortListState : AppState :=
  { lettersLen := 5, index := 0, filterMode := FilterMode.both, playToken := 0,
    continuousActive := false, busy := false, speakCount := 0, errored := false }

/-- Counterexample to claim C3 as stated ("for every loaded letter list"):
with a 5-entry list, switching to consonants sets the cursor to 13, but the
clamp in `_refresh` (index out of range) resets it to 0 — which is neither
`firstVisible(consonants) = 13` nor visible under the consonants mode. -/
theorem claim_C3_cex :
    (onFilterChanged false 3 FilterMode.consonants shortListState).1.index = 0 ∧
    (onFilterChanged false 3 FilterMode.consonants shortListState).1.index ≠
      firstVisible FilterMode.consonants ∧
    isIndexVisible FilterMode.consonants
      ((onFilterChanged false 3 FilterMode.consonants shortListState).1.index) = false := by
  decide

/-- A state with the full 48-letter alphabet loaded. -/
def fullListState : AppState :=
  { lettersLen := 48, index := 0, filterMode := FilterMode.both, playToken := 0,
    continuousActive := false, busy := false, speakCount := 0, errored := false }

/-- Witness for C3 (amended) at the full 48-letter list, switching to
consonants. -/
theorem claim_C3_witness :
    (onFilterChanged false 3 FilterMode.consonants fullListState).1.index =
      firstVisible FilterMode.consonants ∧
    (onFilterChanged false 3 FilterMode.consonants fullListState).1.filterMode =
      FilterMode.consonants ∧
    isIndexVisible FilterMode.consonants
      ((onFilterChanged false 3 FilterMode.consonants fullListState).1.index) = true :=
  claim_C3 false 3 FilterMode.consonants fullListState (fun _ => Or.inr (by decide))

/-- Claim C6: a `_play_repeated(3, token)` campaign whose token stays current,
with the engine reporting not-busy promptly after each utterance, continuous
mode off and a cursor inside the list, performs exactly 3 `play_for`
(Speaker.speak) calls and ends with the busy flag cleared and no pending
continuation. -/
theorem claim_C6 (ttsRepeats : Int) (s : AppState)
    (hcont : s.continuousActive = false)
    (hidx : s.index < s.lettersLen) :
    runConts ttsRepeats 5 s [Cont.playRep 3 s.playToken] =
      ({ s with busy := false, speakCount := s.speakCount + 3 }, []) := by
  cases s with
  | mk len idx mode tok cact busy sc err =>
    simp only [AppState.continuousActive] at hcont
    subst hcont
    simp only [AppState.index, AppState.lettersLen] at hidx
    simp [runConts, fire, playRepeated, waitUntilSilent, afterDone, hidx]

/-- An idle state over the full alphabet. -/
def idleState : AppState :=
  { lettersLen := 48, index := 0, filterMode := FilterMode.both, playToken := 1,
    continuousActive := false, busy := false, speakCount := 0, errored := false }

/-- Witness for C6 at a concrete idle state: 3 repeats, 3 speak calls, back to
not busy. -/
theorem claim_C6_witness :
    runConts 3 5 idleState [Cont.playRep 3 idleState.playToken] =
      ({ idleState with busy := false, speakCount := 3 }, []) :=
  claim_C6 3 idleState rfl (by decide)

/-- Claim C7: in continuous mode, at the last visible in-range entry, when the
cycle completion fires `_continuous_advance_and_play` with the token still
current, the cursor wraps to `firstVisible(mode)` (13 for consonants, 0
otherwise), continuous mode stays on, one more utterance is spoken, and no
error is raised. -/
theorem claim_C7 (ttsRepeats : Int) (speaking : Bool) (s : AppState)
    (hact : s.continuousActive = true)
    (hvis : isIndexVisible s.filterMode s.index = true)
    (hrange : s.index < s.lettersLen)
    (hlast : nextVisibleIndex s.filterMode s.lettersLen s.index = none) :
    (fire ttsRepeats speaking (Cont.contAdvance s.playToken) s).1.index =
      firstVisible s.filterMode ∧
    (fire ttsRepeats speaking (Cont.contAdvance s.playToken) s).1.continuousActive = true ∧
    (fire ttsRepeats speaking (Cont.contAdvance s.playToken) s).1.speakCount =
      s.speakCount + 1 ∧
    (fire ttsRepeats speaking (Cont.contAdvance s.playToken) s).1.errored = s.errored := by
  have hwrap : (if s.filterMode = FilterMode.consonants then 13 else 0) < s.lettersLen := by
    by_cases hm : s.filterMode = FilterMode.consonants
    · have h13 : 13 ≤ s.index := by
        have := hvis
        rw [hm] at this
        simpa [isIndexVisible] using this
      simp only [hm, if_pos]
      omega
    · simp only [hm, if_neg, ite_false]
      omega
  have hne : s.lettersLen ≠ 0 := by omega
  have h1 : fire ttsRepeats speaking (Cont.contAdvance s.playToken) s =
      waitUntilSilent speaking s.playToken (effRepeats ttsRepeats)
        { s with index := (if s.filterMode = FilterMode.consonants then 13 else 0),
                 busy := true, speakCount := s.speakCount + 1 } := by
    simp [fire, continuousAdvanceAndPlay, hact, hlast, playRepeated, refreshIndex,
      hne, hwrap]
  rw [h1, waitUntilSilent_fst]
  simp [firstVisible, hact]

/-- A continuous-mode state sitting at the last consonant of a 14-entry list. -/
def lastConsonantState : AppState :=
  { lettersLen := 14, index := 13, filterMode := FilterMode.consonants, playToken := 4,
    continuousActive := true, busy := true, speakCount := 9, errored := false }

/-- Witness for C7: continuous consonants mode at the last entry wraps to
index 13 and plays once more. -/
theorem claim_C7_witness :
    (fire 3 false (Cont.contAdvance lastConsonantState.playToken) lastConsonantState).1.index =
      firstVisible lastConsonantState.filterMode ∧
    (fire 3 false (Cont.contAdvance lastConsonantState.playToken) lastConsonantState).1.continuousActive = true ∧
    (fire 3 false (Cont.contAdvance lastConsonantState.playToken) lastConsonantState).1.speakCount =
      lastConsonantState.speakCount + 1 ∧
    (fire 3 false (Cont.contAdvance lastConsonantState.playToken) lastConsonantState).1.errored =
      lastConsonantState.errored :=
  claim_C7 3 false lastConsonantState rfl (by decide) (by decide) (by decide)

/-- Claim C10: with continuous mode active, `on_play` acts as Stop: it clears
the continuous flag, bumps the token, speaks nothing, schedules nothing, and
(as long as the cursor is inside the list, or the list is empty — an
invariant of every reachable state) leaves the cursor unchanged. -/
theorem claim_C10 (ttsRepeats : Int) (speaking : Bool) (s : AppState)
    (hact : s.continuousActive = true)
    (hidx : s.lettersLen = 0 ∨ s.index < s.lettersLen) :
    onPlay ttsRepeats speaking s =
      ({ s with continuousActive := false, playToken := s.playToken + 1 }, []) := by
  rcases hidx with h0 | h0
  · simp [onPlay, hact, stopContinuous, refreshIndex, h0]
  · have hne : s.lettersLen ≠ 0 := by omega
    simp [onPlay, hact, stopContinuous, refreshIndex, hne, h0]

/-- A busy continuous-mode state in the middle of the list. -/
def midContinuousState : AppState :=
  { lettersLen := 48, index := 20, filterMode := FilterMode.both, playToken := 7,
    continuousActive := true, busy := true, speakCount := 5, errored := false }

/-- Witness for C10 at a concrete continuous-mode state. -/
theorem claim_C10_witness :
    onPlay 3 false midContinuousState =
      ({ midContinuousState with continuousActive := false, playToken := 8 }, []) :=
  claim_C10 3 false midContinuousState rfl (Or.inr (by decide))

/-- `HindiTTSPlayer._has_devanagari`: some character lies in U+0900..U+097F. -/
def isDevanagariChar (c : Char) : Bool :=
  decide (0x900 ≤ c.toNat) && decide (c.toNat ≤ 0x97F)

/-- `any('ऀ' <= ch <= 'ॿ' for ch in text)`. -/
def hasDevanagari (text : List Char) : Bool :=
  text.any isDevanagariChar

/-- The two fields of a `HindiLetter` that `play_for` reads. -/
structure SpokenLetter where
  symbol : List Char
  pronunciation : List Char
deriving DecidableEq, Repr

/-- The engine-related state of `HindiTTSPlayer`: which engine instance is
live (`engineGen` increments on reinitialisation) and the remembered voice
id. -/
structure TTSState where
  engineGen : Nat
  voiceId : Option Nat
deriving DecidableEq, Repr

/-- Outcome of one `say`/`runAndWait` round of the engine: it either produces
audio or raises. -/
inductive SpeakOutcome where
  | ok
  | fail
deriving DecidableEq, Repr

/-- The text-selection rule at the top of `play_for`: with no stored
Hindi-capable voice and a Devanagari symbol, fall back to the
transliteration. -/
def speakTextFor (voiceId : Option Nat) (letter : SpokenLetter) : List Char :=
  if voiceId = none ∧ hasDevanagari letter.symbol = true then letter.pronunciation
  else letter.symbol

/-- `HindiTTSPlayer._reinit_engine`: a fresh engine, then restore the stored
voice (`restoreOk` is whether `setProperty("voice", ...)` succeeds; on failure
or with no stored voice the auto-selection runs, yielding `autoSelect`). -/
def reinitEngine (restoreOk : Bool) (autoSelect : Option Nat) (st : TTSState) : TTSState :=
  { engineGen := st.engineGen + 1,
    voiceId :=
      match st.voiceId with
      | some v => if restoreOk then some v else autoSelect
      | none => autoSelect }

/-- What one `play_for` call did: the engine state afterwards, the texts
passed to `say` (in order), whether an exception escaped to the caller, and
whether the retry itself failed (logged and dropped). -/
structure PlayForResult where
  tts : TTSState
  attempts : List (List Char)
  raised : Bool
  retryFailed : Bool
deriving DecidableEq, Repr

/-- `HindiTTSPlayer.play_for(letter)`: compute the text once; try
`say`/`runAndWait`; on any failure reinitialise the engine and retry the same
text exactly once; a failure of the retry is logged and swallowed.
`sayOutcome`/`retryOutcome` are the oracle behaviours of the two possible
engine rounds. -/
def playFor (sayOutcome retryOutcome : SpeakOutcome) (restoreOk : Bool)
    (autoSelect : Option Nat) (st : TTSState) (letter : SpokenLetter) : PlayForResult :=
  let t := speakTextFor st.voiceId letter
  match sayOutcome with
  | .ok => { tts := st, attempts := [t], raised := false, retryFailed := false }
  | .fail =>
    { tts := reinitEngine restoreOk autoSelect st,
      attempts := [t, t],
      raised := false,
      retryFailed := decide (retryOutcome = SpeakOutcome.fail) }

/-- Claim C8: for every letter and every behaviour of the engine's
`say`/`runAndWait`, `play_for` never propagates an exception; a first failure
reinitialises the engine (fresh instance, stored voice restored when the
restore call succeeds) and retries the very same utterance exactly once; a
failing retry is dropped. -/
theorem claim_C8 (sayOutcome retryOutcome : SpeakOutcome) (restoreOk : Bool)
    (autoSelect : Option Nat) (st : TTSState) (letter : SpokenLetter) :
    (playFor sayOutcome retryOutcome restoreOk autoSelect st letter).raised = false ∧
    (sayOutcome = SpeakOutcome.ok →
      (playFor sayOutcome retryOutcome restoreOk autoSelect st letter).attempts =
        [speakTextFor st.voiceId letter] ∧
      (playFor sayOutcome retryOutcome restoreOk autoSelect st letter).tts = st) ∧
    (sayOutcome = SpeakOutcome.fail →
      (playFor sayOutcome retryOutcome restoreOk autoSelect st letter).attempts =
        [speakTextFor st.voiceId letter, speakTextFor st.voiceId letter] ∧
      (playFor sayOutcome retryOutcome restoreOk autoSelect st letter).tts.engineGen =
        st.engineGen + 1 ∧
      (∀ v, st.voiceId = some v → restoreOk = true →
        (playFor sayOutcome retryOutcome restoreOk autoSelect st letter).tts.voiceId =
          some v)) := by
  cases sayOutcome with
  | ok => simp [playFor]
  | fail =>
    refine ⟨rfl, by simp, fun _ => ⟨rfl, rfl, ?_⟩⟩
    intro v hv hr
    simp [playFor, reinitEngine, hv, hr]

/-- `html.escape(s, quote=True)` on one character: `&`, `<`, `>`, `"` (U+0022)
and the apostrophe (U+0027) become entities, everything else is unchanged.
(Python replaces `&` first, so replacing character by character agrees with
the sequential `str.replace` calls.) -/
def htmlEscapeChar (c : Char) : List Char :=
  if c = Char.ofNat 38 then "&amp;".data
  else if c = Char.ofNat 60 then "&lt;".data
  else if c = Char.ofNat 62 then "&gt;".data
  else if c = Char.ofNat 34 then "&quot;".data
  else if c = Char.ofNat 39 then "&#x27;".data
  else [c]

/-- `html.escape` over a whole string. -/
def htmlEscape (s : List Char) : List Char :=
  (s.map htmlEscapeChar).flatten

theorem htmlEscape_append (a b : List Char) :
    htmlEscape (a ++ b) = htmlEscape a ++ htmlEscape b := by
  simp [htmlEscape]

/-- The match loop of the `regex` module's `finditer(r"\X", text)` /
`findall(r"\X", text)`: scanning left to right, each `\X` match consumes at
least one and at most all remaining characters.  `g` gives the length the
grapheme rule assigns to the cluster starting at the current position
(clamped into `[1, remaining]`, as any real `\X` match is); the fuel is the
string length, enough for every step since each match is non-empty. -/
def clustersOfAux (g : List Char → Nat) : Nat → List Char → List (List Char)
  | 0, _ => []
  | _ + 1, [] => []
  | fuel + 1, c :: cs =>
    let e := min (g (c :: cs) - 1) cs.length
    (c :: cs.take e) :: clustersOfAux g fuel (cs.drop e)

/-- The list of grapheme clusters of `text` (`_REGEX.findall(r"\X", text)`). -/
def clustersOf (g : List Char → Nat) (text : List Char) : List (List Char) :=
  clustersOfAux g text.length text

theorem clustersOfAux_join (g : List Char → Nat) :
    ∀ fuel l, l.length ≤ fuel → (clustersOfAux g fuel l).flatten = l := by
  intro fuel
  induction fuel with
  | zero =>
    intro l hl
    have : l = [] := List.eq_nil_of_length_eq_zero (by omega)
    subst this
    rfl
  | succ fuel ih =>
    intro l hl
    cases l with
    | nil => rfl
    | cons c cs =>
      have hdrop : (cs.drop (min (g (c :: cs) - 1) cs.length)).length ≤ fuel := by
        simp only [List.length_drop]
        simp only [List.length_cons] at hl
        omega
      simp only [clustersOfAux, List.flatten_cons, ih _ hdrop, List.cons_append,
        List.take_append_drop]

/-- Concatenating the clusters gives back the text: `\X` matching drops no
characters. -/
theorem clustersOf_join (g : List Char → Nat) (text : List Char) :
    (clustersOf g text).flatten = text :=
  clustersOfAux_join g text.length text (Nat.le_refl _)

theorem clustersOfAux_mem_pos (g : List Char → Nat) :
    ∀ fuel l cl, cl ∈ clustersOfAux g fuel l → 0 < cl.length := by
  intro fuel
  induction fuel with
  | zero => intro l cl h; simp [clustersOfAux] at h
  | succ fuel ih =>
    intro l cl h
    cases l with
    | nil => simp [clustersOfAux] at h
    | cons c cs =>
      simp only [clustersOfAux, List.mem_cons] at h
      rcases h with rfl | h
      · simp
      · exact ih _ cl h

/-- Python's substring test `needle in hay`, prefix check. -/
def headMatches : List Char → List Char → Bool
  | [], _ => true
  | _ :: _, [] => false
  | a :: as, b :: bs => a == b && headMatches as bs

/-- Python's substring test `needle in hay`. -/
def occursIn (needle : List Char) : List Char → Bool
  | [] => needle.isEmpty
  | b :: t => headMatches needle (b :: t) || occursIn needle t

/-- One emitted chunk of `_highlight_matra_cluster`: an escaped cluster,
either wrapped in the highlight `<span>` or left bare. -/
inductive HPart where
  | plain (s : List Char)
  | styled (s : List Char)
deriving DecidableEq, Repr

/-- The literal opening tag of the highlight span in
`_highlight_matra_cluster`. -/
def spanOpenMatra : List Char :=
  ("<span style=\"background:#E6F0FF; color:#0A5BD3; font-weight:700; " ++
    "border-radius:3px; padding:0 2px;\">").data

/-- The literal closing tag. -/
def spanCloseMatra : List Char :=
  "</span>".data

/-- Rendering one chunk into the returned markup string. -/
def partRender : HPart → List Char
  | .plain s => s
  | .styled s => spanOpenMatra ++ s ++ spanCloseMatra

/-- The chunk with its style span markers stripped. -/
def partContent : HPart → List Char
  | .plain s => s
  | .styled s => s

def isPlainPart : HPart → Bool
  | .plain _ => true
  | .styled _ => false

/-- The per-cluster branch of the loop in `_highlight_matra_cluster`:
`if dep_str and dep_str in cl` wrap the escaped cluster, else escape it
bare. -/
def highlightPart (dep cl : List Char) : HPart :=
  if dep ≠ [] ∧ occursIn dep cl = true then HPart.styled (htmlEscape cl)
  else HPart.plain (htmlEscape cl)

/-- `MainWindow._highlight_matra_cluster(text, dep)` as the list of emitted
chunks (the Python `parts` list; the function returns `"".flatten(parts)`):
empty `dep` short-circuits to the escaped raw text; otherwise the text is
NFC-normalised (`nfc`), and without the `regex` module (`regexAvailable`) or
if `findall` raises (`findallOk = false`) the escaped normalised text is
returned unstyled; else each `\X` cluster is escaped and styled iff it
contains `dep`. -/
def highlightParts (nfc : List Char → List Char) (g : List Char → Nat)
    (regexAvailable findallOk : Bool) (text dep : List Char) : List HPart :=
  if dep = [] then [HPart.plain (htmlEscape text)]
  else
    let t := nfc text
    if regexAvailable = false then [HPart.plain (htmlEscape t)]
    else if findallOk = false then [HPart.plain (htmlEscape t)]
    else (clustersOf g t).map (highlightPart dep)

/-- The markup string `_highlight_matra_cluster` returns. -/
def highlightMatraCluster (nfc : List Char → List Char) (g : List Char → Nat)
    (regexAvailable findallOk : Bool) (text dep : List Char) : List Char :=
  ((highlightParts nfc g regexAvailable findallOk text dep).map partRender).flatten

/-- The output with the style span markers stripped. -/
def stripHighlight (parts : List HPart) : List Char :=
  (parts.map partContent).flatten

theorem partContent_highlightPart (dep cl : List Char) :
    partContent (highlightPart dep cl) = htmlEscape cl := by
  unfold highlightPart
  split_ifs <;> rfl

theorem stripHighlight_map (dep : List Char) (cls : List (List Char)) :
    stripHighlight (cls.map (highlightPart dep)) = htmlEscape cls.flatten := by
  induction cls with
  | nil => simp [stripHighlight, htmlEscape]
  | cons cl cls ih =>
    simp only [List.map_cons, stripHighlight, List.flatten_cons, List.flatten,
      partContent_highlightPart, List.flatten_cons] at *
    rw [ih, htmlEscape_append]

/-- `unicodedata.normalize("NFC", ·)` restricted to the Devanagari block
(U+0900–U+097F), which is all the highlighting code feeds it: Devanagari has
no composing pairs (all precomposed nukta letters are composition
exclusions), so NFC there only *decomposes* the precomposed nukta letters
U+0929, U+0931, U+0934 and U+0958–U+095F into base consonant + nukta
(U+093C); every other Devanagari character is left unchanged.  Characters
outside the block are modelled as unchanged. -/
def nfcDecompChar (c : Char) : List Char :=
  if c = Char.ofNat 0x929 then [Char.ofNat 0x928, Char.ofNat 0x93C]
  else if c = Char.ofNat 0x931 then [Char.ofNat 0x930, Char.ofNat 0x93C]
  else if c = Char.ofNat 0x934 then [Char.ofNat 0x933, Char.ofNat 0x93C]
  else if c = Char.ofNat 0x958 then [Char.ofNat 0x915, Char.ofNat 0x93C]
  else if c = Char.ofNat 0x959 then [Char.ofNat 0x916, Char.ofNat 0x93C]
  else if c = Char.ofNat 0x95A then [Char.ofNat 0x917, Char.ofNat 0x93C]
  else if c = Char.ofNat 0x95B then [Char.ofNat 0x91C, Char.ofNat 0x93C]
  else if c = Char.ofNat 0x95C then [Char.ofNat 0x921, Char.ofNat 0x93C]
  else if c = Char.ofNat 0x95D then [Char.ofNat 0x922, Char.ofNat 0x93C]
  else if c = Char.ofNat 0x95E then [Char.ofNat 0x92B, Char.ofNat 0x93C]
  else if c = Char.ofNat 0x95F then [Char.ofNat 0x92F, Char.ofNat 0x93C]
  else [c]

/-- NFC normalisation over a Devanagari string (see `nfcDecompChar`). -/
def normalizeNFC (s : List Char) : List Char :=
  (s.map nfcDecompChar).flatten

/-- Combining characters of the Devanagari block (vowel signs, nukta, virama,
candrabindu/anusvara/visarga, stress marks, vocalic extensions): these extend
the `\X` grapheme cluster of the preceding base character. -/
def isDevanagariCombining (c : Char) : Bool :=
  (decide (0x900 ≤ c.toNat) && decide (c.toNat ≤ 0x903)) ||
  (decide (0x93A ≤ c.toNat) && decide (c.toNat ≤ 0x93C)) ||
  (decide (0x93E ≤ c.toNat) && decide (c.toNat ≤ 0x94F)) ||
  (decide (0x951 ≤ c.toNat) && decide (c.toNat ≤ 0x957)) ||
  (decide (0x962 ≤ c.toNat) && decide (c.toNat ≤ 0x963))

def countLeading (p : Char → Bool) : List Char → Nat
  | [] => 0
  | c :: cs => if p c then countLeading p cs + 1 else 0

/-- The `\X` cluster length on Devanagari text: a base character plus the run
of combining marks that follows it. -/
def graphemeLenDevanagari : List Char → Nat
  | [] => 0
  | _ :: cs => 1 + countLeading isDevanagariCombining cs

/-- Claim C2 (amended): stripping the style span markers from
`_highlight_matra_cluster(text, dep)` yields the HTML-escape of the
*NFC-normalised* text whenever `dep` is non-empty (and of the raw text when
`dep` is empty) — for every normalisation function, every grapheme rule and
both availability flags; with empty `dep`, or when `dep` occurs in no
cluster, no highlighting is applied. -/
theorem claim_C2 (nfc : List Char → List Char) (g : List Char → Nat)
    (regexAvailable findallOk : Bool) (text dep : List Char) :
    (stripHighlight (highlightParts nfc g regexAvailable findallOk text dep) =
      htmlEscape (if dep = [] then text else nfc text)) ∧
    (dep = [] →
      highlightParts nfc g regexAvailable findallOk text dep =
        [HPart.plain (htmlEscape text)]) ∧
    ((∀ cl ∈ clustersOf g (nfc text), occursIn dep cl = false) →
      ∀ p ∈ highlightParts nfc g regexAvailable findallOk text dep,
        isPlainPart p = true) := by
  refine ⟨?_, ?_, ?_⟩
  · by_cases hdep : dep = []
    · simp [highlightParts, stripHighlight, hdep, partContent]
    · cases regexAvailable with
      | false => simp [highlightParts, stripHighlight, hdep, partContent]
      | true =>
        cases findallOk with
        | false => simp [highlightParts, stripHighlight, hdep, partContent]
        | true => simp [highlightParts, hdep, stripHighlight_map, clustersOf_join]
  · intro hdep
    simp [highlightParts, hdep]
  · intro hnone p hp
    by_cases hdep : dep = []
    · simp [highlightParts, hdep] at hp
      rw [hp]
      rfl
    · cases regexAvailable with
      | false =>
        simp [highlightParts, hdep] at hp
        rw [hp]
        rfl
      | true =>
        cases findallOk with
        | false =>
          simp [highlightParts, hdep] at hp
          rw [hp]
          rfl
        | true =>
          simp [highlightParts, hdep, List.mem_map] at hp
          obtain ⟨cl, hcl, rfl⟩ := hp
          simp [highlightPart, hnone cl hcl, isPlainPart]

/-- The precomposed letter क़ (U+0958), which NFC decomposes into
क (U+0915) + nukta (U+093C). -/
def nuktaText : List Char := [Char.ofNat 0x958]

/-- The nukta sign U+093C, used as the needle. -/
def nuktaSign : List Char := [Char.ofNat 0x93C]

/-- Counterexample to claim C2 as stated: `_highlight_matra_cluster`
NFC-normalises before segmenting, so on the input text क़ (the single code
point U+0958) with the nukta U+093C as needle, the output with markers
stripped is the escape of the decomposed pair U+0915 U+093C — not the escape
of the input text. -/
theorem claim_C2_cex :
    stripHighlight (highlightParts normalizeNFC graphemeLenDevanagari true true
        nuktaText nuktaSign) = [Char.ofNat 0x915, Char.ofNat 0x93C] ∧
    htmlEscape nuktaText = [Char.ofNat 0x958] ∧
    stripHighlight (highlightParts normalizeNFC graphemeLenDevanagari true true
        nuktaText nuktaSign) ≠ htmlEscape nuktaText := by
  refine ⟨by decide, by decide, by decide⟩

/-- The spans `(m.start(), m.end())` of the successive `finditer` matches,
recovered from the successive cluster lengths. -/
def spansFromLens : Nat → List Nat → List (Nat × Nat)
  | _, [] => []
  | pos, k :: ks => (pos, pos + k) :: spansFromLens (pos + k) ks

/-- `ExampleMatraPointer._cluster_positions(text)`: without the `regex`
module, or when `finditer` raises (`finditerOk = false`), every single code
point is its own cluster (`[(i, i + 1) for i in range(len(text))]`);
otherwise the spans of the `\X` matches. -/
def clusterPositions (regexAvailable finditerOk : Bool) (g : List Char → Nat)
    (text : List Char) : List (Nat × Nat) :=
  if regexAvailable = false then (List.range text.length).map (fun i => (i, i + 1))
  else if finditerOk = false then (List.range text.length).map (fun i => (i, i + 1))
  else spansFromLens 0 ((clustersOf g text).map List.length)

/-- `spansChain pos spans n`: the spans are adjacent and non-empty, the first
starts at `pos`, and the last ends at `n` (with `pos = n` for no spans): the
spans partition `[pos, n)` contiguously in order. -/
def spansChain : Nat → List (Nat × Nat) → Nat → Bool
  | pos, [], n => pos == n
  | pos, (a, b) :: rest, n => a == pos && decide (pos < b) && spansChain b rest n

theorem spansChain_spansFromLens :
    ∀ ks pos, (∀ k ∈ ks, 0 < k) →
      spansChain pos (spansFromLens pos ks) (pos + ks.sum) = true := by
  intro ks
  induction ks with
  | nil => intro pos _; simp [spansFromLens, spansChain]
  | cons k ks ih =>
    intro pos h
    have hk : 0 < k := h k (by simp)
    have hrest := ih (pos + k) (fun x hx => h x (by simp [hx]))
    simp only [spansFromLens, spansChain, beq_self_eq_true, Bool.true_and,
      Bool.and_eq_true, decide_eq_true_eq]
    refine ⟨by omega, ?_⟩
    simpa [List.sum_cons, Nat.add_assoc] using hrest

theorem spansChain_singles :
    ∀ n s, spansChain s ((List.range' s n).map (fun i => (i, i + 1))) (s + n) = true := by
  intro n
  induction n with
  | zero => intro s; simp [List.range', spansChain]
  | succ n ih =>
    intro s
    rw [List.range'_succ]
    simp only [List.map_cons, spansChain, beq_self_eq_true, Bool.true_and,
      Bool.and_eq_true, decide_eq_true_eq]
    refine ⟨by omega, ?_⟩
    have := ih (s + 1)
    have harith : s + 1 + n = s + (n + 1) := by omega
    rwa [harith] at this

theorem clustersOf_sumLens (g : List Char → Nat) (text : List Char) :
    ((clustersOf g text).map List.length).sum = text.length := by
  have h := clustersOf_join g text
  calc ((clustersOf g text).map List.length).sum
      = (clustersOf g text).flatten.length := (List.length_flatten _).symm
    _ = text.length := by rw [h]

/-- Claim C9: `_cluster_positions` always returns spans that partition the
whole string contiguously in order (adjacent, starting at 0, ending at the
string's length, dropping nothing) — for every grapheme rule, and also on
both degraded paths (no `regex` module, or `finditer` raising), where the
result is exactly one single-code-point span per index; the function is
total, hence never raises. -/
theorem claim_C9 (regexAvailable finditerOk : Bool) (g : List Char → Nat)
    (text : List Char) :
    spansChain 0 (clusterPositions regexAvailable finditerOk g text)
      text.length = true ∧
    (regexAvailable = false ∨ finditerOk = false →
      clusterPositions regexAvailable finditerOk g text =
        (List.range text.length).map (fun i => (i, i + 1))) := by
  have hsingles : spansChain 0
      ((List.range text.length).map (fun i => (i, i + 1))) text.length = true := by
    have h0 := spansChain_singles text.length 0
    rwa [← List.range_eq_range', Nat.zero_add] at h0
  constructor
  · cases regexAvailable with
    | false => simpa [clusterPositions] using hsingles
    | true =>
      cases finditerOk with
      | false => simpa [clusterPositions] using hsingles
      | true =>
        have hpos : ∀ k ∈ (clustersOf g text).map List.length, 0 < k := by
          intro k hk
          simp only [List.mem_map] at hk
          obtain ⟨cl, hcl, rfl⟩ := hk
          exact clustersOfAux_mem_pos g text.length text cl hcl
        have hchain := spansChain_spansFromLens ((clustersOf g text).map List.length) 0 hpos
        rw [Nat.zero_add, clustersOf_sumLens] at hchain
        simpa [clusterPositions] using hchain
  · intro h
    rcases h with h | h <;> simp [clusterPositions, h]

end HindiApp
